import Mathlib

/-!
A shallow embedding of the Swiss chess tournament manager (`src/app.py`)
and proofs about its pairing, ranking, result-recording and snapshot code.

Conventions of the embedding:

* The player registry (`st.session_state.players`, a Python dict keyed by the
  integer player id, insertion ordered) is a `List Player` in registration
  order; each record carries its own `id`, exactly as the Python records do.
  Dict lookup `players[pid]` is `findPlayer`, dict value update is
  `updPlayer` (the id field is never changed, so first-match lookup and
  map-update agree with the Python dict).
* Scores and per-opponent results are held in half-point units as integers:
  a win is `2`, a draw `1`, a loss `0`, so `score += 1` in Python is
  `+ 2` here and `score += 0.5` is `+ 1`.  Every tie-break column
  (score, Buchholz, Sonneborn-Berger, direct encounter, rating) is thereby a
  fixed positive multiple of its floating-point counterpart (Sonneborn-Berger
  lands in quarter-point units), so every comparison, and hence the sort
  order, agrees with the source.
* `pandas.DataFrame.sort_values` with several `by` columns is a stable
  lexicographic sort (numpy `lexsort`); it is modelled by the stable
  insertion sort `sortIns` under the lexicographic descending key `lexGE`.
  The output of a stable sort is uniquely determined by the key order and
  the input order, so any stable model computes the same list.
* Python exceptions (`ValueError` in `choose_colors`, `RuntimeError` in
  `swiss_pair`, `KeyError` on a missing dict key) are `Except String`.
  `swiss_pair` mutates the registry before it can raise, so it returns the
  resulting registry together with the `Except` outcome.
-/

namespace Swiss

/-- A player record, mirroring the dict created by `add_player` in
`src/app.py`: id, name, rating, gender, age, cumulative score, color history
(entries `"W"`/`"B"`), opponent history, per-opponent result map (insertion
ordered, as a Python dict), and the bye flag.  `score` and the result values
are in half-point units (see module comment). -/
structure Player where
  id : Nat
  name : String
  rating : Int
  gender : String
  age : Nat
  score : Int
  colors : List String
  opponents : List Nat
  results : List (Nat × Int)
  bye : Bool
deriving DecidableEq, Repr

/-- The player registry: `st.session_state.players` in registration order. -/
abbrev State := List Player

/-- Dict lookup `st.session_state.players[pid]`. -/
def findPlayer (s : State) (pid : Nat) : Option Player :=
  s.find? (fun p => p.id == pid)

/-- Update the record stored under `pid` (a no-op if `pid` is unknown).
All updates used by the code preserve the `id` field. -/
def updPlayer (s : State) (pid : Nat) (f : Player → Player) : State :=
  s.map (fun p => if p.id = pid then f p else p)

/-- `players[pid]["opponents"]`, empty for an unknown id (the app only looks
up ids that are registered). -/
def getOpponents (s : State) (pid : Nat) : List Nat :=
  ((findPlayer s pid).map Player.opponents).getD []

/-- `players[pid]["colors"]`. -/
def getColors (s : State) (pid : Nat) : List String :=
  ((findPlayer s pid).map Player.colors).getD []

/-- `players[pid]["score"]` (half-point units). -/
def getScore (s : State) (pid : Nat) : Int :=
  ((findPlayer s pid).map Player.score).getD 0

/-- `players[pid]["bye"]`. -/
def getBye (s : State) (pid : Nat) : Bool :=
  ((findPlayer s pid).map Player.bye).getD false

/-- `players[pid]["name"]`. -/
def getName (s : State) (pid : Nat) : String :=
  ((findPlayer s pid).map Player.name).getD ("")

/-- `add_player(name, rating, gender, age)`: appends a fresh record with id
`len(players) + 1`, zero score, empty histories, bye flag false. -/
def add_player (s : State) (name : String) (rating : Int)
    (gender : String) (age : Nat) : State :=
  s ++ [{ id := s.length + 1, name := name, rating := rating,
          gender := gender, age := age, score := 0, colors := [],
          opponents := [], results := [], bye := false }]

/-- `row["results"].get(o, 0)`. -/
def resultAgainst (p : Player) (o : Nat) : Int :=
  ((p.results.find? (fun kv => kv.1 == o)).map (fun kv => kv.2)).getD 0

/-- Python dict assignment `results[o] = v`: overwrite if present, else
append (insertion order preserved). -/
def setAssoc (m : List (Nat × Int)) (o : Nat) (v : Int) : List (Nat × Int) :=
  if m.any (fun kv => kv.1 == o) then
    m.map (fun kv => if kv.1 == o then (o, v) else kv)
  else
    m ++ [(o, v)]

/-- Buchholz column of `standings`: sum of the current scores of all recorded
opponents (half-point units). -/
def buchholz (s : State) (p : Player) : Int :=
  (p.opponents.map (fun o => getScore s o)).sum

/-- Sonneborn-Berger column of `standings`: sum over recorded opponents of
`opponent.score * results.get(o, 0)` (quarter-point units here). -/
def sonneborn (s : State) (p : Player) : Int :=
  (p.opponents.map (fun o => getScore s o * resultAgainst p o)).sum

/-- The `direct` column of `standings` in `src/app.py`: the sum of ALL of the
player's recorded point results, with no restriction on the opponent. -/
def direct (p : Player) : Int :=
  (p.results.map (fun kv => kv.2)).sum

/-- The sort key of `standings` as the column list passed to `sort_values`:
score, Buchholz, Sonneborn-Berger, then the direct column only when `final`,
then rating. -/
def sortKey (s : State) (final : Bool) (p : Player) : List Int :=
  [p.score, buchholz s p, sonneborn s p]
    ++ (if final then [direct p] else []) ++ [p.rating]

/-- Lexicographic "greater or equal" on key lists: the descending sort order
used by `sort_values(by=order, ascending=False)`. -/
def lexGE : List Int → List Int → Bool
  | [], _ => true
  | _ :: _, [] => false
  | a :: as, b :: bs => if b < a then true else if a < b then false else lexGE as bs

/-- Stable insertion of `x` into a list sorted descending by `le`: `x` goes
in front of the first element it is not below, i.e. after every earlier
element that compares ahead-or-equivalent — the placement a stable sort
gives an element that preceded the tail in the input. -/
def insertK (le : Player → Player → Bool) (x : Player) : List Player → List Player
  | [] => [x]
  | y :: ys => if le x y then x :: y :: ys else y :: insertK le x ys

/-- Stable sort by `le` (insertion sort, processing from the right so every
element is inserted in front of the equivalent elements that followed it).
Models the stable `pandas` multi-column sort: a stable sort's output is
uniquely determined by the key order and the input order. -/
def sortIns (le : Player → Player → Bool) : List Player → List Player
  | [] => []
  | x :: xs => insertK le x (sortIns le xs)

/-- `standings(final)`: the registry rows sorted stably, descending, by
(score, buchholz, sonneborn, [direct if final], rating). -/
def standings (s : State) (final : Bool) : List Player :=
  sortIns (fun a b => lexGE (sortKey s final a) (sortKey s final b)) s

/-- `choose_colors(p1, p2)`: raises on a repeat pairing, else gives Black to
whichever player has strictly more Whites than Blacks (checking `p1` first),
defaulting to `(p1, p2)`. -/
def choose_colors (s : State) (p1 p2 : Nat) : Except String (Nat × Nat) :=
  if p2 ∈ getOpponents s p1 then .error ("Repeat pairing detected")
  else
    let c1 := getColors s p1
    let c2 := getColors s p2
    if c1.count ("W") > c1.count ("B") then .ok (p2, p1)
    else if c2.count ("W") > c2.count ("B") then .ok (p1, p2)
    else .ok (p1, p2)

/-- The scan `for p2 in unpaired` of `swiss_pair`: the first remaining player
not already in `p1`'s opponent history — over the whole remaining pool,
with no score-group restriction. -/
def findOpp (s : State) (p1 : Nat) (rest : List Nat) : Option Nat :=
  rest.find? (fun p2 => !((getOpponents s p1).contains p2))

/-- The `while len(unpaired) >= 2` loop of `swiss_pair`, with an explicit
structural fuel so the definition computes by kernel reduction; every call
site passes `fuel = unpaired.length`, which the loop never exhausts (each
step consumes one fuel and removes two players).  A single leftover player
is silently dropped, exactly as in the source. -/
def pairLoopAux (s : State) : Nat → List Nat → Except String (List (Nat × Nat))
  | _, [] => .ok []
  | _, [_] => .ok []
  | 0, _ :: _ :: _ => .ok []
  | fuel + 1, p1 :: q :: rest =>
    match findOpp s p1 (q :: rest) with
    | none => .error ("No valid pairing possible for " ++ getName s p1)
    | some p2 =>
      match choose_colors s p1 p2 with
      | .error e => .error e
      | .ok wb =>
        match pairLoopAux s fuel ((q :: rest).erase p2) with
        | .error e => .error e
        | .ok tl => .ok (wb :: tl)

/-- The pairing phase of `swiss_pair` on a pool of unpaired ids. -/
def pairLoop (s : State) (unpaired : List Nat) : Except String (List (Nat × Nat)) :=
  pairLoopAux s unpaired.length unpaired

/-- The bye scan `for pid in reversed(unpaired)`: the last id in ranked
order whose bye flag is still false. -/
def byeSelect (s : State) (ranked : List Nat) : Option Nat :=
  ranked.reverse.find? (fun pid => !(getBye s pid))

/-- The bye-flag/score mutation committed when `pid` receives the bye. -/
def giveBye (s : State) (pid : Nat) : State :=
  updPlayer s pid (fun p => { p with bye := true, score := p.score + 2 })

/-- The ranked candidate order: `standings()["id"].tolist()`. -/
def rankedIds (s : State) : List Nat :=
  (standings s false).map (fun p => p.id)

/-- The id `swiss_pair` awards the bye to: only consulted when the pool is
odd, and `none` when every candidate's bye flag is already true. -/
def byeAward (s : State) : Option Nat :=
  if (rankedIds s).length % 2 = 1 then byeSelect s (rankedIds s) else none

/-- The bye block of `swiss_pair`: the registry after any bye mutation, the
pool that remains to be paired, and the bye entries of the round (one or
none). -/
def byeStep (s : State) : State × List Nat × List (Nat × Option Nat) :=
  if (rankedIds s).length % 2 = 1 then
    match byeSelect s (rankedIds s) with
    | some pid => (giveBye s pid, (rankedIds s).erase pid, [(pid, none)])
    | none => (s, rankedIds s, [])
  else (s, rankedIds s, [])

/-- `swiss_pair()`: ranks via `standings`, optionally commits a bye
(mutating that player's flag and score), then greedily pairs the remaining
pool.  Returns the registry as mutated so far together with either the
round (bye entry first, then `(white, black)` boards) or the
`RuntimeError`. -/
def swiss_pair (s : State) : State × Except String (List (Nat × Option Nat)) :=
  ((byeStep s).1,
    match pairLoop (byeStep s).1 (byeStep s).2.1 with
    | .error e => .error e
    | .ok ps => .ok ((byeStep s).2.2 ++ ps.map (fun wb => (wb.1, some wb.2))))

/-- `players[pid]["score"] += d` (half-point units). -/
def addScore (s : State) (pid : Nat) (d : Int) : State :=
  updPlayer s pid (fun p => { p with score := p.score + d })

/-- `players[pid]["results"][o] = v`. -/
def putResult (s : State) (pid o : Nat) (v : Int) : State :=
  updPlayer s pid (fun p => { p with results := setAssoc p.results o v })

/-- One non-bye iteration of the `apply_results` loop: append colors and
opponents to both players, then score and record the outcome — `"1-0"`
and `"0-1"` are decisive, ANY other outcome string falls into the `else`
branch and is scored as a draw. -/
def applyEntry (s : State) (w b : Nat) (r : String) : State :=
  let s1 := updPlayer s w (fun p =>
    { p with colors := p.colors ++ ["W"], opponents := p.opponents ++ [b] })
  let s2 := updPlayer s1 b (fun p =>
    { p with colors := p.colors ++ ["B"], opponents := p.opponents ++ [w] })
  if r = "1-0" then
    putResult (putResult (addScore s2 w 2) w b 2) b w 0
  else if r = "0-1" then
    putResult (putResult (addScore s2 b 2) w b 0) b w 2
  else
    putResult (putResult (addScore (addScore s2 w 1) b 1) w b 1) b w 1

/-- `apply_results(results)`: entries are applied strictly in order; a bye
entry (`black = none`) is skipped; an unknown id is Python's `KeyError`.
There is no validation of the outcome string anywhere. -/
def apply_results (s : State) : List (Nat × Option Nat × String) → Except String State
  | [] => .ok s
  | (_, none, _) :: rest => apply_results s rest
  | (w, some b, r) :: rest =>
    if (findPlayer s w).isSome && (findPlayer s b).isSome then
      apply_results (applyEntry s w b r) rest
    else .error ("KeyError")

/-- Total of all registered players' scores (half-point units). -/
def totalScore (s : State) : Int :=
  (s.map (fun p => p.score)).sum

/-- Entries of a result batch that are games (not byes) with a decisive
outcome string. -/
def decisiveCount (rs : List (Nat × Option Nat × String)) : Nat :=
  (rs.filter (fun e => e.2.1.isSome && (e.2.2 == "1-0" || e.2.2 == "0-1"))).length

/-- Entries of a result batch that are games scored as draws (everything
the code's `else` branch catches). -/
def drawCount (rs : List (Nat × Option Nat × String)) : Nat :=
  (rs.filter (fun e => e.2.1.isSome && !(e.2.2 == "1-0" || e.2.2 == "0-1"))).length

/-- Bye entries of a generated round. -/
def byeCountRound (ps : List (Nat × Option Nat)) : Nat :=
  (ps.filter (fun e => e.2.isNone)).length

/-- The direct-encounter value as the spec's words describe it (for
comparison with the code's `direct` column): the sum of the player's point
results restricted to opponents tied with them on score. -/
def directSpecCohort (s : State) (p : Player) : Int :=
  ((p.results.filter (fun kv => getScore s kv.1 == p.score)).map (fun kv => kv.2)).sum

/-- A key of a Python dict as JSON sees it: an int key or a string key. -/
inductive JKey where
  | num : Nat → JKey
  | str : String → JKey
deriving DecidableEq, Repr

/-- A player record as it comes back from `json.load`: identical except that
the keys of the nested `results` dict have been turned into strings by
`json.dumps`. -/
structure PlayerJ where
  id : Nat
  name : String
  rating : Int
  gender : String
  age : Nat
  score : Int
  colors : List String
  opponents : List Nat
  results : List (String × Int)
  bye : Bool
deriving DecidableEq, Repr

/-- The in-memory registry viewed as the dict it is in the app: keyed by the
integer player id. -/
def registryDict (s : State) : List (JKey × Player) :=
  s.map (fun p => (JKey.num p.id, p))

/-- What `json.dumps` followed by `json.load` makes of one player record:
the record's own fields survive, but the keys of its `results` dict become
strings. -/
def exportPlayer (p : Player) : PlayerJ :=
  { id := p.id, name := p.name, rating := p.rating, gender := p.gender,
    age := p.age, score := p.score, colors := p.colors,
    opponents := p.opponents,
    results := p.results.map (fun kv => (Nat.repr kv.1, kv.2)), bye := p.bye }

/-- The players dict after the save-then-load round trip of the Save / Load
tab: `json.dumps` writes every dict key as a JSON string, and `json.load`
keeps them strings, so the restored registry is keyed by `"1"`, `"2"`, …
instead of `1`, `2`, …. -/
def exportImportPlayers (s : State) : List (JKey × PlayerJ) :=
  s.map (fun p => (JKey.str (Nat.repr p.id), exportPlayer p))

/-- Python dict lookup `d[k]` as an `Option` (a `none` is a `KeyError`). -/
def dictLookup {α : Type} (m : List (JKey × α)) (k : JKey) : Option α :=
  (m.find? (fun kv => kv.1 == k)).map (fun kv => kv.2)

/-- Symmetry of the opponent histories: whenever `j` is recorded as an
opponent of `i`, `i` is recorded as an opponent of `j`.  `apply_results`
always appends to both histories, so every state the app can reach has this
property. -/
def Sym (s : State) : Prop :=
  ∀ i j : Nat, j ∈ getOpponents s i → i ∈ getOpponents s j

/-- The states reachable through the app's operations: the empty registry,
registration, round generation (which may mutate the bye state), and a
successful result submission. -/
inductive Reachable : State → Prop
  | init : Reachable []
  | register (s : State) (name : String) (rating : Int) (gender : String)
      (age : Nat) : Reachable s → Reachable (add_player s name rating gender age)
  | generate (s : State) : Reachable s → Reachable (swiss_pair s).1
  | submit (s : State) (rs : List (Nat × Option Nat × String)) (s' : State) :
      Reachable s → apply_results s rs = .ok s' → Reachable s'

/-! Concrete tournament states used by counterexamples and witnesses. -/

/-- Outcome strings used in concrete batches. -/
def drawOutcome : String := "draw"

def badOutcome : String := "2-0"

def halfOutcome : String := "½-½"

/-- Two freshly registered players. -/
def sFresh2 : State :=
  [{ id := 1, name := "Ada", rating := 1500, gender := "", age := 20, score := 0,
     colors := [], opponents := [], results := [], bye := false },
   { id := 2, name := "Ben", rating := 1400, gender := "", age := 21, score := 0,
     colors := [], opponents := [], results := [], bye := false }]

/-- After round one of a three-player event: Ann beat Ben, Cal had no game
yet.  Ann and Ben have met, so once Cal takes the bye the remaining pair is
a repeat and pairing must fail — after the bye was already committed. -/
def sRepeat3 : State :=
  [{ id := 1, name := "Ann", rating := 1500, gender := "", age := 20, score := 2,
     colors := ["W"], opponents := [2], results := [(2, 2)], bye := false },
   { id := 2, name := "Ben", rating := 1400, gender := "", age := 21, score := 0,
     colors := ["B"], opponents := [1], results := [(1, 0)], bye := false },
   { id := 3, name := "Cal", rating := 1300, gender := "", age := 22, score := 0,
     colors := [], opponents := [], results := [], bye := false }]

/-- After round one of a four-player event: board one was decisive
(player 1 beat player 2), board two was drawn (players 3 and 4).  The
resulting scores are 1, 0, ½, ½ — in half-point units 2, 0, 1, 1. -/
def c2p1 : Player :=
  { id := 1, name := "Ann", rating := 1500, gender := "", age := 20, score := 2,
    colors := ["W"], opponents := [2], results := [(2, 2)], bye := false }

def c2p2 : Player :=
  { id := 2, name := "Ben", rating := 1400, gender := "", age := 21, score := 0,
    colors := ["B"], opponents := [1], results := [(1, 0)], bye := false }

def c2p3 : Player :=
  { id := 3, name := "Cal", rating := 1300, gender := "", age := 22, score := 1,
    colors := ["W"], opponents := [4], results := [(4, 1)], bye := false }

def c2p4 : Player :=
  { id := 4, name := "Dee", rating := 1200, gender := "", age := 23, score := 1,
    colors := ["B"], opponents := [3], results := [(3, 1)], bye := false }

def sRound2 : State := [c2p1, c2p2, c2p3, c2p4]

/-- An odd pool in which every player's bye flag is already set. -/
def sAllByes3 : State :=
  [{ id := 1, name := "Ann", rating := 1500, gender := "", age := 20, score := 2,
     colors := [], opponents := [], results := [], bye := true },
   { id := 2, name := "Ben", rating := 1400, gender := "", age := 21, score := 2,
     colors := [], opponents := [], results := [], bye := true },
   { id := 3, name := "Cal", rating := 1300, gender := "", age := 22, score := 2,
     colors := [], opponents := [], results := [], bye := true }]

/-! Claim C1. -/

/-- Claim C1, counterexample: on `sRepeat3` the call fails with the
pairing `RuntimeError`, yet the registry HAS been mutated — Cal's bye flag
and score were committed before the failure.  `generate_next_round` is not
side-effect free and does not roll back on `PairingError`. -/
theorem swiss_pair_mutates_on_failure_cex :
    (swiss_pair sRepeat3).2 = .error ("No valid pairing possible for " ++ getName sRepeat3 1) ∧
    (swiss_pair sRepeat3).1 ≠ sRepeat3 ∧
    getBye (swiss_pair sRepeat3).1 3 = true ∧
    getScore (swiss_pair sRepeat3).1 3 = getScore sRepeat3 3 + 2 :=
  ⟨rfl, by decide, by decide, by decide⟩

/-- Claim C1, amended: the registry `swiss_pair` leaves behind is exactly
the one produced by the bye commitment — when a bye is awarded, that
player's flag and score are mutated (and remain so even if pairing then
fails); when no bye is awarded (even pool, or no eligible candidate) the
registry is returned unchanged, on success and on failure alike. -/
theorem swiss_pair_state_is_exactly_bye_commit (s : State) :
    (swiss_pair s).1 = match byeAward s with
      | some pid => giveBye s pid
      | none => s := by
  show (byeStep s).1 = _
  unfold byeStep byeAward
  split
  · cases h : byeSelect s (rankedIds s) <;> simp [h]
  · simp

/-! Claim C2, counterexample (the amended statement follows later with the
pairing-loop lemmas). -/

/-- Claim C2, counterexample: on `sRound2` the score groups are
{Ann (1 pt)}, {Cal, Dee (½ pt)}, {Ben (0 pt)}; Ann's group offers her no
partner, so the claimed engine would fail — instead the code scans the whole
remaining pool and pairs Ann with Cal across the score-group boundary. -/
theorem swiss_pair_crosses_score_groups_cex :
    (swiss_pair sRound2).2 = .ok [(3, some 1), (4, some 2)] ∧
    getScore sRound2 3 ≠ getScore sRound2 1 :=
  ⟨rfl, by decide⟩

/-! Claim C3. -/

/-- Claim C3, counterexample: the outcome `"2-0"` is outside the accepted
set, yet `apply_results` raises no `ValidationError` — the batch is applied
in full and the malformed entry is scored as a draw (both players gain half
a point, one unit here). -/
theorem apply_results_accepts_invalid_outcome_cex :
    apply_results sFresh2 [(1, some 2, badOutcome)] = .ok (applyEntry sFresh2 1 2 badOutcome) ∧
    getScore (applyEntry sFresh2 1 2 badOutcome) 1 = getScore sFresh2 1 + 1 ∧
    getScore (applyEntry sFresh2 1 2 badOutcome) 2 = getScore sFresh2 2 + 1 :=
  ⟨rfl, by decide, by decide⟩

/-- Claim C3, amended: `apply_results` performs no outcome validation at
all.  A batch entry with registered ids always succeeds whatever its
outcome string, and every outcome other than `"1-0"` and `"0-1"` — the
UI's `"½-½"` as well as arbitrary garbage — is scored exactly as a draw. -/
theorem apply_results_no_outcome_validation :
    (∀ (s : State) (w b : Nat) (r : String),
      (findPlayer s w).isSome → (findPlayer s b).isSome →
      apply_results s [(w, some b, r)] = .ok (applyEntry s w b r)) ∧
    (∀ (s : State) (w b : Nat) (r : String), r ≠ "1-0" → r ≠ "0-1" →
      applyEntry s w b r = applyEntry s w b drawOutcome) := by
  constructor
  · intro s w b r hw hb
    simp [apply_results, hw, hb]
  · intro s w b r h1 h2
    simp [applyEntry, drawOutcome, h1, h2]

/-- Witness for the amended C3 statement: the UI's own draw string
`"½-½"` is accepted and scored as a draw. -/
theorem apply_results_no_outcome_validation_witness :
    apply_results sFresh2 [(1, some 2, halfOutcome)] = .ok (applyEntry sFresh2 1 2 halfOutcome) ∧
    applyEntry sFresh2 1 2 halfOutcome = applyEntry sFresh2 1 2 drawOutcome :=
  ⟨apply_results_no_outcome_validation.1 sFresh2 1 2 halfOutcome (by decide) (by decide),
   apply_results_no_outcome_validation.2 sFresh2 1 2 halfOutcome (by decide) (by decide)⟩

/-! Claim C4. -/

/-- A string-keyed entry never matches an integer-key lookup. -/
theorem jkey_str_beq_num (a : String) (b : Nat) :
    (JKey.str a == JKey.num b) = false := rfl

/-- Integer-key comparison reduces to comparison of the underlying ids. -/
theorem jkey_num_beq_num (a b : Nat) :
    (JKey.num a == JKey.num b) = (a == b) := by
  by_cases h : a = b <;> simp [h]

/-- Claim C4: the save-then-load round trip does NOT reproduce an
observationally equal tournament.  `json.dumps` writes the players dict's
integer keys as JSON strings and `json.load` keeps them strings, so in the
restored registry no lookup by integer player id resolves (a `KeyError` in
Python), whereas in the original registry a lookup by id resolves exactly
when the id is registered. -/
theorem roundtrip_numeric_ids_unresolvable (s : State) (pid : Nat) :
    dictLookup (exportImportPlayers s) (JKey.num pid) = none ∧
    dictLookup (registryDict s) (JKey.num pid) = findPlayer s pid := by
  constructor
  · induction s with
    | nil => rfl
    | cons p rest ih =>
      simp only [dictLookup, exportImportPlayers, List.map_cons, List.find?_cons,
        jkey_str_beq_num] at ih ⊢
      exact ih
  · induction s with
    | nil => rfl
    | cons p rest ih =>
      simp only [dictLookup, registryDict, findPlayer, List.map_cons,
        List.find?_cons, jkey_num_beq_num] at ih ⊢
      cases h : (p.id == pid) with
      | true => simp [h]
      | false => simpa [h] using ih

/-! Claim C5. -/

/-- Claim C5, counterexample: Ann's only recorded result is her win over
Ben, who is NOT tied with her on score, so the tied-cohort sum is 0 — but
the `direct` column of `standings` sums all results and gives her full
point (2 half-units). -/
theorem direct_not_restricted_to_cohort_cex :
    direct c2p1 ≠ directSpecCohort sRound2 c2p1 ∧ c2p1 ∈ sRound2 :=
  ⟨by decide, by decide⟩

/-- Claim C5, amended: the `direct` column is the sum of the player's point
results over ALL opponents, with no score-cohort restriction (it coincides
with the cohort-restricted sum exactly when every recorded opponent is tied
with the player); it enters the sort key only when `final` is true. -/
theorem direct_sums_all_results (s : State) (p : Player)
    (h : ∀ kv ∈ p.results, getScore s kv.1 = p.score) :
    direct p = directSpecCohort s p ∧
    sortKey s true p = [p.score, buchholz s p, sonneborn s p, direct p, p.rating] ∧
    sortKey s false p = [p.score, buchholz s p, sonneborn s p, p.rating] := by
  refine ⟨?_, rfl, rfl⟩
  have hf : p.results.filter (fun kv => getScore s kv.1 == p.score) = p.results :=
    List.filter_eq_self.mpr (by intro kv hkv; simpa using h kv hkv)
  simp only [direct, directSpecCohort, hf]

/-- Witness for the amended C5 statement: Cal's single recorded opponent
(Dee) is tied with him, so the two readings agree there. -/
theorem direct_sums_all_results_witness :
    direct c2p3 = directSpecCohort sRound2 c2p3 :=
  (direct_sums_all_results sRound2 c2p3 (by decide)).1

/-! Claim C2, amended statement. -/

/-- `choose_colors` succeeds exactly on a non-repeat pair, and its output is
one of the two orientations of that pair. -/
theorem choose_colors_ok_of_not_played (s : State) (p1 p2 : Nat)
    (h : p2 ∉ getOpponents s p1) :
    ∃ wb, choose_colors s p1 p2 = .ok wb ∧ (wb = (p1, p2) ∨ wb = (p2, p1)) := by
  by_cases h1 : (getColors s p1).count ("W") > (getColors s p1).count ("B")
  · exact ⟨(p2, p1), by simp [choose_colors, if_neg h, h1], Or.inr rfl⟩
  · by_cases h2 : (getColors s p2).count ("W") > (getColors s p2).count ("B")
    · exact ⟨(p1, p2), by simp [choose_colors, if_neg h, h1, h2], Or.inl rfl⟩
    · exact ⟨(p1, p2), by simp [choose_colors, if_neg h, h1, h2], Or.inl rfl⟩

/-- When the front player has already met every remaining opponent, the
pairing loop raises at once. -/
theorem pairLoop_error_of_all_played (s : State) (p1 q : Nat) (rest : List Nat)
    (h : ∀ x ∈ q :: rest, x ∈ getOpponents s p1) :
    pairLoop s (p1 :: q :: rest) = .error ("No valid pairing possible for " ++ getName s p1) := by
  have hf : findOpp s p1 (q :: rest) = none := by
    refine List.find?_eq_none.mpr ?_
    intro x hx
    simpa using h x hx
  simp [pairLoop, List.length_cons, pairLoopAux, hf]

/-- When no two pool members have ever met, the pairing loop always
succeeds, whatever the players' scores (fuel-general form; `pairLoop`
passes `fuel = u.length`). -/
theorem pairLoopAux_ok_of_no_history (s : State) :
    ∀ (fuel : Nat) (u : List Nat), u.length ≤ 2 * fuel + 1 → u.Nodup →
      (∀ a ∈ u, ∀ c ∈ u, a ≠ c → c ∉ getOpponents s a) →
      ∃ ps, pairLoopAux s fuel u = .ok ps := by
  intro fuel
  induction fuel with
  | zero =>
    intro u hlen _ _
    match u with
    | [] => exact ⟨[], rfl⟩
    | [x] => exact ⟨[], rfl⟩
    | p1 :: q :: rest => simp only [List.length_cons] at hlen; omega
  | succ fuel ih =>
    intro u hlen hnd hh
    match u with
    | [] => exact ⟨[], rfl⟩
    | [x] => exact ⟨[], rfl⟩
    | p1 :: q :: rest =>
      have hp1q : p1 ≠ q := by
        intro hEq
        have := List.nodup_cons.mp hnd
        exact this.1 (hEq ▸ List.mem_cons_self q rest)
      have hqnot : q ∉ getOpponents s p1 :=
        hh p1 (List.mem_cons_self _ _) q (List.mem_cons.mpr (Or.inr (List.mem_cons_self _ _))) hp1q
      have hf : findOpp s p1 (q :: rest) = some q := by
        unfold findOpp
        rw [List.find?_cons]
        simp [hqnot]
      obtain ⟨wb, hcc, _⟩ := choose_colors_ok_of_not_played s p1 q hqnot
      have herase : (q :: rest).erase q = rest := List.erase_cons_head q rest
      have hrest : ∃ ps, pairLoopAux s fuel rest = .ok ps := by
        refine ih rest ?_ ?_ ?_
        · simp only [List.length_cons] at hlen ⊢; omega
        · exact (List.nodup_cons.mp ((List.nodup_cons.mp hnd).2)).2
        · intro a ha c hc hac
          exact hh a (List.mem_cons.mpr (Or.inr (List.mem_cons.mpr (Or.inr ha))))
            c (List.mem_cons.mpr (Or.inr (List.mem_cons.mpr (Or.inr hc)))) hac
      obtain ⟨tl, htl⟩ := hrest
      refine ⟨wb :: tl, ?_⟩
      simp [pairLoopAux, hf, hcc, herase, htl]

/-- Claim C2, amended: the pairing step does NOT partition into score
groups — the front unpaired player is matched with the first never-played
opponent anywhere in the remaining ranked pool, regardless of score, and
the `RuntimeError` is raised only when the front player has met every
remaining unpaired player.  In particular, on a pool of distinct players
none of whom have ever met, pairing always succeeds whatever their
scores. -/
theorem pairing_scans_whole_pool :
    (∀ (s : State) (p1 q : Nat) (rest : List Nat),
      (∀ x ∈ q :: rest, x ∈ getOpponents s p1) →
      pairLoop s (p1 :: q :: rest) = .error ("No valid pairing possible for " ++ getName s p1)) ∧
    (∀ (s : State) (u : List Nat), u.Nodup →
      (∀ a ∈ u, ∀ c ∈ u, a ≠ c → c ∉ getOpponents s a) →
      ∃ ps, pairLoop s u = .ok ps) := by
  constructor
  · exact pairLoop_error_of_all_played
  · intro s u hnd hh
    exact pairLoopAux_ok_of_no_history s u.length u (by omega) hnd hh

/-- Witness for the amended C2 statement: Ann has met her whole remaining
pool in `sRepeat3`, so the loop raises; the fresh pool of `sFresh2` pairs
fine. -/
theorem pairing_scans_whole_pool_witness :
    pairLoop sRepeat3 [1, 2] = .error ("No valid pairing possible for " ++ getName sRepeat3 1) ∧
    ∃ ps, pairLoop sFresh2 [1, 2] = .ok ps :=
  ⟨pairing_scans_whole_pool.1 sRepeat3 1 2 [] (by decide),
   pairing_scans_whole_pool.2 sFresh2 [1, 2] (by decide) (by decide)⟩

/-! Claim C6: the sort used by `standings` is a stable descending
lexicographic sort.  First the order `lexGE`, then the insertion-sort
lemmas. -/

/-- `lexGE` is reflexive. -/
theorem lexGE_refl : ∀ k : List Int, lexGE k k = true
  | [] => rfl
  | a :: as => by simp [lexGE, lt_irrefl, lexGE_refl as]

/-- `lexGE` is total. -/
theorem lexGE_total : ∀ a b : List Int, lexGE a b = true ∨ lexGE b a = true
  | [], _ => Or.inl rfl
  | _ :: _, [] => Or.inr rfl
  | a :: as, b :: bs => by
    rcases lt_trichotomy a b with h | h | h
    · exact Or.inr (by simp [lexGE, h])
    · subst h
      rcases lexGE_total as bs with ih | ih
      · exact Or.inl (by simp [lexGE, lt_irrefl, ih])
      · exact Or.inr (by simp [lexGE, lt_irrefl, ih])
    · exact Or.inl (by simp [lexGE, h])

/-- `lexGE` is transitive. -/
theorem lexGE_trans : ∀ a b c : List Int,
    lexGE a b = true → lexGE b c = true → lexGE a c = true
  | [], _, _ => fun _ _ => rfl
  | _ :: _, [], _ => fun h1 _ => by simp [lexGE] at h1
  | _ :: _, _ :: _, [] => fun _ h2 => by simp [lexGE] at h2
  | a :: as, b :: bs, c :: cs => fun h1 h2 => by
    simp only [lexGE] at h1 h2 ⊢
    split_ifs at h1 h2 ⊢ <;>
      first
      | rfl
      | omega
      | (exact lexGE_trans as bs cs h1 h2)

section StableSort

variable {le : Player → Player → Bool}

/-- Inserting an element only adds to a list: the old list is a sublist of
the result. -/
theorem sublist_insertK (x : Player) :
    ∀ m : List Player, m.Sublist (insertK le x m)
  | [] => List.nil_sublist _
  | y :: ys => by
    unfold insertK
    split
    · exact List.sublist_cons_self x (y :: ys)
    · exact List.Sublist.cons₂ y (sublist_insertK x ys)

/-- `insertK` is insertion: the result is a permutation of `x :: m`. -/
theorem insertK_perm (x : Player) :
    ∀ m : List Player, (insertK le x m).Perm (x :: m)
  | [] => List.Perm.refl _
  | y :: ys => by
    unfold insertK
    split
    · exact List.Perm.refl _
    · exact ((insertK_perm x ys).cons y).trans (List.Perm.swap x y ys)

/-- `sortIns` permutes its input. -/
theorem sortIns_perm : ∀ l : List Player, (sortIns le l).Perm l
  | [] => List.Perm.refl _
  | x :: xs =>
    (insertK_perm x (sortIns le xs)).trans ((sortIns_perm xs).cons x)

/-- Inserting into a `le`-sorted list keeps it sorted, given totality and
transitivity of `le`. -/
theorem sorted_insertK
    (htot : ∀ a b, le a b = true ∨ le b a = true)
    (htrans : ∀ a b c, le a b = true → le b c = true → le a c = true)
    (x : Player) :
    ∀ m : List Player, m.Pairwise (fun a b => le a b = true) →
      (insertK le x m).Pairwise (fun a b => le a b = true)
  | [], _ => List.pairwise_cons.mpr ⟨by simp, List.Pairwise.nil⟩
  | y :: ys, hm => by
    obtain ⟨hy, hys⟩ := List.pairwise_cons.mp hm
    unfold insertK
    split
    · rename_i hxy
      refine List.pairwise_cons.mpr ⟨?_, hm⟩
      intro z hz
      rcases List.mem_cons.mp hz with rfl | hz
      · exact hxy
      · exact htrans x y z hxy (hy z hz)
    · rename_i hxy
      have hyx : le y x = true := (htot x y).resolve_left (by simpa using hxy)
      refine List.pairwise_cons.mpr ⟨?_, sorted_insertK htot htrans x ys hys⟩
      intro z hz
      rcases List.mem_cons.mp ((insertK_perm x ys).mem_iff.mp hz) with rfl | hz
      · exact hyx
      · exact hy z hz

/-- `sortIns` sorts, given totality and transitivity of `le`. -/
theorem sorted_sortIns
    (htot : ∀ a b, le a b = true ∨ le b a = true)
    (htrans : ∀ a b c, le a b = true → le b c = true → le a c = true) :
    ∀ l : List Player, (sortIns le l).Pairwise (fun a b => le a b = true)
  | [] => List.Pairwise.nil
  | x :: xs =>
    sorted_insertK htot htrans x (sortIns le xs) (sorted_sortIns htot htrans xs)

/-- Inserting `a` in front of the equivalence class it belongs to: if `b`
occurs in `m` and `a` is not below `b`, then `a` lands before `b`. -/
theorem insertK_before {a b : Player} (hab : le a b = true) :
    ∀ m : List Player, [b].Sublist m → [a, b].Sublist (insertK le a m)
  | [], hm => absurd (List.singleton_sublist.mp hm) (List.not_mem_nil b)
  | y :: ys, hm => by
    unfold insertK
    split
    · exact List.Sublist.cons₂ a hm
    · rename_i hay
      cases hm with
      | cons _ h' => exact List.Sublist.cons y (insertK_before hab ys h')
      | cons₂ _ h' => exact absurd hab (by simpa using hay)

/-- Stability of `sortIns`: a pair that appears in order in the input and is
not inverted by `le` still appears in that order in the output.  With
`le a b` and `le b a` both true (equal keys) this is exactly the "ties keep
their original order" guarantee of a stable sort. -/
theorem sortIns_stable {a b : Player} (hab : le a b = true) :
    ∀ l : List Player, [a, b].Sublist l → [a, b].Sublist (sortIns le l)
  | [], h => by cases h
  | x :: xs, h => by
    cases h with
    | cons _ h' =>
      exact (sortIns_stable hab xs h').trans (sublist_insertK x (sortIns le xs))
    | cons₂ _ h' =>
      refine insertK_before hab (sortIns le xs) ?_
      refine List.singleton_sublist.mpr ?_
      exact (sortIns_perm xs).mem_iff.mpr (List.singleton_sublist.mp h')

end StableSort

/-- Claim C6: `standings` is a permutation of the registry, sorted
descending by the lexicographic key (score, Buchholz, Sonneborn-Berger,
[direct if final], rating), and the sort is stable — two players whose keys
agree on every criterion keep their original registration-order relative
position. -/
theorem standings_sorted_stable :
    (∀ (s : State) (final : Bool), (standings s final).Perm s) ∧
    (∀ (s : State) (final : Bool),
      (standings s final).Pairwise
        (fun a b => lexGE (sortKey s final a) (sortKey s final b) = true)) ∧
    (∀ (s : State) (final : Bool) (a b : Player),
      [a, b].Sublist s → sortKey s final a = sortKey s final b →
      [a, b].Sublist (standings s final)) := by
  refine ⟨?_, ?_, ?_⟩
  · intro s final
    exact sortIns_perm s
  · intro s final
    exact sorted_sortIns
      (fun a b => lexGE_total (sortKey s final a) (sortKey s final b))
      (fun a b c => lexGE_trans (sortKey s final a) (sortKey s final b) (sortKey s final c))
      s
  · intro s final a b hsub hkey
    exact sortIns_stable (by rw [hkey]; exact lexGE_refl _) s hsub

/-- Two fresh players with identical ratings: every sort criterion ties. -/
def w1 : Player :=
  { id := 1, name := "Eva", rating := 1500, gender := "", age := 20, score := 0,
    colors := [], opponents := [], results := [], bye := false }

def w2 : Player :=
  { id := 2, name := "Fay", rating := 1500, gender := "", age := 21, score := 0,
    colors := [], opponents := [], results := [], bye := false }

def sTie2 : State := [w1, w2]

/-- Witness for C6: on two players tied on every criterion the standings
keep registration order. -/
theorem standings_sorted_stable_witness :
    (standings sTie2 false).Perm sTie2 ∧
    (standings sTie2 false).Pairwise
      (fun a b => lexGE (sortKey sTie2 false a) (sortKey sTie2 false b) = true) ∧
    [w1, w2].Sublist (standings sTie2 false) :=
  ⟨standings_sorted_stable.1 sTie2 false,
   standings_sorted_stable.2.1 sTie2 false,
   standings_sorted_stable.2.2 sTie2 false w1 w2 (List.Sublist.refl sTie2) (by decide)⟩

/-! Claim C9: score conservation.  Bookkeeping lemmas about `updPlayer`
first. -/

/-- Updating an unregistered id changes nothing. -/
theorem updPlayer_of_not_mem (s : State) (pid : Nat) (f : Player → Player)
    (h : pid ∉ s.map (fun p => p.id)) : updPlayer s pid f = s := by
  induction s with
  | nil => rfl
  | cons p rest ih =>
    simp only [List.map_cons, List.mem_cons, not_or] at h
    simp only [updPlayer, List.map_cons] at ih ⊢
    rw [if_neg (by exact fun hEq => h.1 hEq.symm), ih h.2]

/-- An id-preserving update leaves the id column unchanged. -/
theorem map_id_updPlayer (s : State) (pid : Nat) (f : Player → Player)
    (hf : ∀ p, (f p).id = p.id) :
    (updPlayer s pid f).map (fun p => p.id) = s.map (fun p => p.id) := by
  induction s with
  | nil => rfl
  | cons p rest ih =>
    simp only [updPlayer, List.map_cons] at ih ⊢
    by_cases h : p.id = pid
    · rw [if_pos h, ih, hf]
    · rw [if_neg h, ih]

/-- A score-preserving update leaves the total score unchanged. -/
theorem totalScore_updPlayer_pres (s : State) (pid : Nat) (f : Player → Player)
    (hf : ∀ p, (f p).score = p.score) :
    totalScore (updPlayer s pid f) = totalScore s := by
  induction s with
  | nil => rfl
  | cons p rest ih =>
    simp only [totalScore, updPlayer, List.map_cons, List.sum_cons] at ih ⊢
    by_cases h : p.id = pid
    · rw [if_pos h, ih, hf]
    · rw [if_neg h, ih]

/-- Updating one registered player's score by `d` moves the total by `d`
(given unique ids, as the Python dict guarantees). -/
theorem totalScore_updPlayer_add (s : State) (pid : Nat) (f : Player → Player)
    (d : Int) (hf : ∀ p, (f p).score = p.score + d)
    (hnd : (s.map (fun p => p.id)).Nodup) (hmem : pid ∈ s.map (fun p => p.id)) :
    totalScore (updPlayer s pid f) = totalScore s + d := by
  induction s with
  | nil => simp at hmem
  | cons p rest ih =>
    simp only [List.map_cons, List.nodup_cons] at hnd
    simp only [List.map_cons, List.mem_cons] at hmem
    simp only [totalScore, updPlayer, List.map_cons, List.sum_cons] at ih ⊢
    rcases hmem with hEq | hmem
    · rw [if_pos hEq.symm, hf,
        show (List.map (fun q => if q.id = pid then f q else q) rest) = rest from ?_]
      · ring
      · have : updPlayer rest pid f = rest :=
          updPlayer_of_not_mem rest pid f (hEq ▸ hnd.1)
        simpa [updPlayer] using this
    · have hne : p.id ≠ pid := fun hEq => hnd.1 (hEq ▸ hmem)
      rw [if_neg hne, ih hnd.2 hmem]
      ring

/-- Registered ids are exactly those `findPlayer` resolves. -/
theorem findPlayer_isSome_iff (s : State) (pid : Nat) :
    (findPlayer s pid).isSome = true ↔ pid ∈ s.map (fun p => p.id) := by
  simp only [findPlayer, List.find?_isSome, List.mem_map]
  constructor
  · rintro ⟨p, hp, hpid⟩
    exact ⟨p, hp, by simpa using hpid⟩
  · rintro ⟨p, hp, hpid⟩
    exact ⟨p, hp, by simpa using hpid⟩

/-- `addScore` moves the total by its delta (unique registered ids). -/
theorem totalScore_addScore (t : State) (pid : Nat) (d : Int)
    (hnd : (t.map (fun p => p.id)).Nodup) (hmem : pid ∈ t.map (fun p => p.id)) :
    totalScore (addScore t pid d) = totalScore t + d :=
  totalScore_updPlayer_add t pid _ d (fun _ => rfl) hnd hmem

/-- `putResult` never touches a score. -/
theorem totalScore_putResult (t : State) (pid o : Nat) (v : Int) :
    totalScore (putResult t pid o v) = totalScore t :=
  totalScore_updPlayer_pres t pid _ (fun _ => rfl)

/-- `addScore` preserves the id column. -/
theorem map_id_addScore (t : State) (pid : Nat) (d : Int) :
    (addScore t pid d).map (fun p => p.id) = t.map (fun p => p.id) :=
  map_id_updPlayer t pid _ (fun _ => rfl)

/-- `putResult` preserves the id column. -/
theorem map_id_putResult (t : State) (pid o : Nat) (v : Int) :
    (putResult t pid o v).map (fun p => p.id) = t.map (fun p => p.id) :=
  map_id_updPlayer t pid _ (fun _ => rfl)

/-- The colors/opponents appends of `applyEntry` preserve the id column. -/
theorem map_id_updW (s : State) (w b : Nat) :
    ((updPlayer s w (fun p =>
      { p with colors := p.colors ++ ["W"], opponents := p.opponents ++ [b] })).map
        (fun p => p.id)) = s.map (fun p => p.id) :=
  map_id_updPlayer s w _ (fun _ => rfl)

theorem map_id_updB (s : State) (w b : Nat) :
    ((updPlayer s b (fun p =>
      { p with colors := p.colors ++ ["B"], opponents := p.opponents ++ [w] })).map
        (fun p => p.id)) = s.map (fun p => p.id) :=
  map_id_updPlayer s b _ (fun _ => rfl)

/-- The colors/opponents appends of `applyEntry` preserve the total score. -/
theorem totalScore_updW (s : State) (w b : Nat) :
    totalScore (updPlayer s w (fun p =>
      { p with colors := p.colors ++ ["W"], opponents := p.opponents ++ [b] })) =
      totalScore s :=
  totalScore_updPlayer_pres s w _ (fun _ => rfl)

theorem totalScore_updB (s : State) (w b : Nat) :
    totalScore (updPlayer s b (fun p =>
      { p with colors := p.colors ++ ["B"], opponents := p.opponents ++ [w] })) =
      totalScore s :=
  totalScore_updPlayer_pres s b _ (fun _ => rfl)

/-- One applied game entry adds exactly one point (two half-units) to the
total score: 2+0 for a decisive result, 1+1 for everything else. -/
theorem totalScore_applyEntry (s : State) (w b : Nat) (r : String)
    (hnd : (s.map (fun p => p.id)).Nodup)
    (hw : (findPlayer s w).isSome = true) (hb : (findPlayer s b).isSome = true) :
    totalScore (applyEntry s w b r) = totalScore s + 2 := by
  have hwm := (findPlayer_isSome_iff s w).mp hw
  have hbm := (findPlayer_isSome_iff s b).mp hb
  unfold applyEntry
  split_ifs
  · rw [totalScore_putResult, totalScore_putResult,
      totalScore_addScore _ w 2 (by rw [map_id_updB, map_id_updW]; exact hnd)
        (by rw [map_id_updB, map_id_updW]; exact hwm),
      totalScore_updB, totalScore_updW]
  · rw [totalScore_putResult, totalScore_putResult,
      totalScore_addScore _ b 2 (by rw [map_id_updB, map_id_updW]; exact hnd)
        (by rw [map_id_updB, map_id_updW]; exact hbm),
      totalScore_updB, totalScore_updW]
  · rw [totalScore_putResult, totalScore_putResult,
      totalScore_addScore _ b 1
        (by rw [map_id_addScore, map_id_updB, map_id_updW]; exact hnd)
        (by rw [map_id_addScore, map_id_updB, map_id_updW]; exact hbm),
      totalScore_addScore _ w 1 (by rw [map_id_updB, map_id_updW]; exact hnd)
        (by rw [map_id_updB, map_id_updW]; exact hwm),
      totalScore_updB, totalScore_updW]
    ring

/-- `applyEntry` preserves the id column. -/
theorem map_id_applyEntry (s : State) (w b : Nat) (r : String) :
    (applyEntry s w b r).map (fun p => p.id) = s.map (fun p => p.id) := by
  unfold applyEntry
  split_ifs
  · rw [map_id_putResult, map_id_putResult, map_id_addScore, map_id_updB, map_id_updW]
  · rw [map_id_putResult, map_id_putResult, map_id_addScore, map_id_updB, map_id_updW]
  · rw [map_id_putResult, map_id_putResult, map_id_addScore, map_id_addScore,
      map_id_updB, map_id_updW]

/-- The per-batch form: a successful `apply_results` raises the total score
by one point (two half-units) per non-bye entry. -/
theorem totalScore_apply_results :
    ∀ (rs : List (Nat × Option Nat × String)) (s s' : State),
      (s.map (fun p => p.id)).Nodup → apply_results s rs = .ok s' →
      totalScore s' = totalScore s + 2 * ((rs.filter (fun e => e.2.1.isSome)).length : Int)
  | [], s, s', _, h => by
    simp only [apply_results] at h
    cases h
    simp
  | (w, none, r) :: rest, s, s', hnd, h => by
    simp only [apply_results] at h
    have := totalScore_apply_results rest s s' hnd h
    simpa using this
  | (w, some b, r) :: rest, s, s', hnd, h => by
    simp only [apply_results] at h
    by_cases hwb : ((findPlayer s w).isSome && (findPlayer s b).isSome) = true
    · rw [if_pos hwb] at h
      obtain ⟨hw, hb⟩ := Bool.and_eq_true_iff.mp hwb
      have hnd' : ((applyEntry s w b r).map (fun p => p.id)).Nodup := by
        rw [map_id_applyEntry]; exact hnd
      have := totalScore_apply_results rest (applyEntry s w b r) s' hnd' h
      rw [this, totalScore_applyEntry s w b r hnd hw hb]
      simp only [List.filter_cons, Option.isSome_some, Bool.true_and, if_true,
        List.length_cons]
      push_cast
      ring
    · rw [if_neg hwb] at h
      cases h

/-- Every non-bye entry is classified either decisive or draw. -/
theorem decisive_add_draw (rs : List (Nat × Option Nat × String)) :
    decisiveCount rs + drawCount rs = (rs.filter (fun e => e.2.1.isSome)).length := by
  unfold decisiveCount drawCount
  nth_rewrite 3 [List.length_eq_length_filter_add (fun e => e.2.2 == "1-0" || e.2.2 == "0-1")]
  rw [List.filter_filter, List.filter_filter]
  congr 1
  · exact congrArg List.length (List.filter_congr (fun e _ => Bool.and_comm _ _))
  · exact congrArg List.length (List.filter_congr (fun e _ => Bool.and_comm _ _))

/-- A generated round's non-bye boards contain no bye entries. -/
theorem byeCountRound_map_pairs (ps : List (Nat × Nat)) :
    byeCountRound (ps.map (fun wb => (wb.1, some wb.2))) = 0 := by
  induction ps with
  | nil => rfl
  | cons wb rest ih =>
    simpa [byeCountRound, List.filter_cons] using ih

/-- A bye entry at the front of a round counts one bye. -/
theorem byeCountRound_cons_none (a : Nat) (l : List (Nat × Option Nat)) :
    byeCountRound ((a, none) :: l) = byeCountRound l + 1 := by
  simp [byeCountRound, List.filter_cons]

/-- Ids ranked by `standings` are exactly the registered ids (as a
permutation). -/
theorem rankedIds_perm (s : State) :
    (rankedIds s).Perm (s.map (fun p => p.id)) := by
  unfold rankedIds standings
  exact (sortIns_perm _).map (fun p => p.id)

/-- Claim C9: score conservation.  A successful `apply_results` raises the
total score by exactly one point (two half-units) per decisive game plus
one per draw (where "draw" is any non-decisive outcome string the code's
`else` catches), and `swiss_pair` raises the total by exactly one point per
bye entry of the returned round. -/
theorem score_conservation :
    (∀ (s : State) (rs : List (Nat × Option Nat × String)) (s' : State),
      (s.map (fun p => p.id)).Nodup → apply_results s rs = .ok s' →
      totalScore s' = totalScore s + 2 * ((decisiveCount rs + drawCount rs : Nat) : Int)) ∧
    (∀ (s : State) (r : List (Nat × Option Nat)),
      (s.map (fun p => p.id)).Nodup → (swiss_pair s).2 = .ok r →
      totalScore (swiss_pair s).1 = totalScore s + 2 * ((byeCountRound r : Nat) : Int)) := by
  constructor
  · intro s rs s' hnd h
    rw [totalScore_apply_results rs s s' hnd h, decisive_add_draw]
  · intro s r hnd h
    have hstate : (swiss_pair s).1 = (byeStep s).1 := rfl
    by_cases hodd : (rankedIds s).length % 2 = 1
    · cases hsel : byeSelect s (rankedIds s) with
      | some pid =>
        have hbs : byeStep s = (giveBye s pid, (rankedIds s).erase pid, [(pid, none)]) := by
          unfold byeStep
          rw [if_pos hodd, hsel]
        have hpid : pid ∈ s.map (fun p => p.id) := by
          have hmem : pid ∈ (rankedIds s).reverse := List.mem_of_find?_eq_some hsel
          exact (rankedIds_perm s).mem_iff.mp (List.mem_reverse.mp hmem)
        have hcount : byeCountRound r = 1 := by
          revert h
          unfold swiss_pair
          rw [hbs]
          cases hp : pairLoop (giveBye s pid) ((rankedIds s).erase pid) with
          | error e => intro h; cases h
          | ok ps =>
            intro h
            simp only [Except.ok.injEq] at h
            subst h
            simp only [List.singleton_append, byeCountRound_cons_none,
              byeCountRound_map_pairs]
        rw [hstate, hbs, hcount]
        simpa [giveBye] using
          totalScore_updPlayer_add s pid _ 2 (fun p => rfl) hnd hpid
      | none =>
        have hbs : byeStep s = (s, rankedIds s, []) := by
          unfold byeStep
          rw [if_pos hodd, hsel]
        have hcount : byeCountRound r = 0 := by
          revert h
          unfold swiss_pair
          rw [hbs]
          cases hp : pairLoop s (rankedIds s) with
          | error e => intro h; cases h
          | ok ps =>
            intro h
            simp only [Except.ok.injEq] at h
            subst h
            simpa using byeCountRound_map_pairs ps
        rw [hstate, hbs, hcount]
        simp
    · have hbs : byeStep s = (s, rankedIds s, []) := by
        unfold byeStep
        rw [if_neg hodd]
      have hcount : byeCountRound r = 0 := by
        revert h
        unfold swiss_pair
        rw [hbs]
        cases hp : pairLoop s (rankedIds s) with
        | error e => intro h; cases h
        | ok ps =>
          intro h
          simp only [Except.ok.injEq] at h
          subst h
          simpa using byeCountRound_map_pairs ps
      rw [hstate, hbs, hcount]
      simp

/-- Witness for C9: a drawn game adds one point to the system; a round of
`sAllByes3` has no bye entry and leaves the total unchanged. -/
theorem score_conservation_witness :
    totalScore (applyEntry sFresh2 1 2 drawOutcome) =
      totalScore sFresh2 + 2 * ((decisiveCount [(1, some 2, drawOutcome)] +
        drawCount [(1, some 2, drawOutcome)] : Nat) : Int) ∧
    totalScore (swiss_pair sAllByes3).1 =
      totalScore sAllByes3 + 2 * ((byeCountRound [(1, some 2)] : Nat) : Int) :=
  ⟨score_conservation.1 sFresh2 [(1, some 2, drawOutcome)]
      (applyEntry sFresh2 1 2 drawOutcome) (by decide) rfl,
   score_conservation.2 sAllByes3 [(1, some 2)] (by decide) rfl⟩

/-! Claim C8: bye assignment. -/

/-- `choose_colors` only ever returns one of the two orientations of its
input pair. -/
theorem choose_colors_shape (s : State) (p1 p2 : Nat) (wb : Nat × Nat)
    (h : choose_colors s p1 p2 = .ok wb) : wb = (p1, p2) ∨ wb = (p2, p1) := by
  unfold choose_colors at h
  by_cases hmem : p2 ∈ getOpponents s p1
  · rw [if_pos hmem] at h
    exact Except.noConfusion h
  · rw [if_neg hmem] at h
    have h' : (if (getColors s p1).count ("W") > (getColors s p1).count ("B") then
        (Except.ok (p2, p1) : Except String (Nat × Nat))
      else if (getColors s p2).count ("W") > (getColors s p2).count ("B") then
        .ok (p1, p2)
      else .ok (p1, p2)) = .ok wb := h
    split_ifs at h'
    · exact Or.inr (Except.ok.inj h').symm
    · exact Or.inl (Except.ok.inj h').symm
    · exact Or.inl (Except.ok.inj h').symm

/-- `choose_colors` succeeds only on a non-repeat pair (the hard check of
the source). -/
theorem choose_colors_ok_not_played (s : State) (p1 p2 : Nat) (wb : Nat × Nat)
    (h : choose_colors s p1 p2 = .ok wb) : p2 ∉ getOpponents s p1 := by
  unfold choose_colors at h
  by_cases hmem : p2 ∈ getOpponents s p1
  · rw [if_pos hmem] at h
    exact Except.noConfusion h
  · exact hmem

/-- Every pair the loop emits is drawn from the pool it was given. -/
theorem pairLoopAux_mem (s : State) :
    ∀ (fuel : Nat) (u : List Nat) (ps : List (Nat × Nat)),
      pairLoopAux s fuel u = .ok ps → ∀ wb ∈ ps, wb.1 ∈ u ∧ wb.2 ∈ u := by
  intro fuel
  induction fuel with
  | zero =>
    intro u ps h wb hwb
    match u, h with
    | [], h => cases h; exact absurd hwb (List.not_mem_nil wb)
    | [x], h => cases h; exact absurd hwb (List.not_mem_nil wb)
    | p1 :: q :: rest, h => cases h; exact absurd hwb (List.not_mem_nil wb)
  | succ fuel ih =>
    intro u ps h wb hwb
    match u with
    | [] => cases h; exact absurd hwb (List.not_mem_nil wb)
    | [x] => cases h; exact absurd hwb (List.not_mem_nil wb)
    | p1 :: q :: rest =>
      simp only [pairLoopAux] at h
      cases hfo : findOpp s p1 (q :: rest) with
      | none => simp only [hfo] at h; exact Except.noConfusion h
      | some p2 =>
        simp only [hfo] at h
        cases hcc : choose_colors s p1 p2 with
        | error e => simp only [hcc] at h; exact Except.noConfusion h
        | ok wb0 =>
          simp only [hcc] at h
          cases hrec : pairLoopAux s fuel ((q :: rest).erase p2) with
          | error e => simp only [hrec] at h; exact Except.noConfusion h
          | ok tl =>
            simp only [hrec] at h
            injection h with h
            subst h
            have hp2 : p2 ∈ q :: rest := List.mem_of_find?_eq_some hfo
            rcases List.mem_cons.mp hwb with rfl | htl
            · rcases choose_colors_shape s p1 p2 wb hcc with rfl | rfl
              · exact ⟨List.mem_cons_self _ _, List.mem_cons.mpr (Or.inr hp2)⟩
              · exact ⟨List.mem_cons.mpr (Or.inr hp2), List.mem_cons_self _ _⟩
            · have hin := ih ((q :: rest).erase p2) tl hrec wb htl
              exact ⟨List.mem_cons.mpr (Or.inr (List.mem_of_mem_erase hin.1)),
                List.mem_cons.mpr (Or.inr (List.mem_of_mem_erase hin.2))⟩

/-- `findPlayer` after an id-preserving update: the looked-up record is the
old one, updated when its id is the updated one. -/
theorem findPlayer_updPlayer (s : State) (pid q : Nat) (f : Player → Player)
    (hf : ∀ p, (f p).id = p.id) :
    findPlayer (updPlayer s pid f) q =
      (findPlayer s q).map (fun p => if p.id = pid then f p else p) := by
  unfold findPlayer updPlayer
  rw [List.find?_map]
  have hpred : ((fun p : Player => p.id == q) ∘ fun p => if p.id = pid then f p else p) =
      fun p : Player => p.id == q := by
    funext p
    by_cases h : p.id = pid <;> simp [h, hf]
  rw [hpred]

/-- Receiving the bye sets the flag and adds a full point (two
half-units). -/
theorem giveBye_self (s : State) (pid : Nat)
    (hmem : pid ∈ s.map (fun p => p.id)) :
    getBye (giveBye s pid) pid = true ∧
    getScore (giveBye s pid) pid = getScore s pid + 2 := by
  have hsome : (findPlayer s pid).isSome = true := (findPlayer_isSome_iff s pid).mpr hmem
  obtain ⟨p, hp⟩ := Option.isSome_iff_exists.mp hsome
  have hid : p.id = pid := by simpa using List.find?_some hp
  unfold getBye getScore giveBye
  rw [findPlayer_updPlayer s pid pid
    (fun p => { p with bye := true, score := p.score + 2 }) (fun _ => rfl), hp]
  simp [hid]

/-- A bye flag that is set never resets. -/
theorem getBye_giveBye_mono (s : State) (pid q : Nat)
    (h : getBye s q = true) : getBye (giveBye s pid) q = true := by
  unfold getBye at h ⊢
  unfold giveBye
  rw [findPlayer_updPlayer s pid q
    (fun p => { p with bye := true, score := p.score + 2 }) (fun _ => rfl)]
  cases hf : findPlayer s q with
  | none => rw [hf] at h; exact absurd h (by simp)
  | some p =>
    rw [hf] at h
    by_cases hid : p.id = pid
    · simp [hid]
    · simpa [hid] using h

/-- Claim C8, amended with the hypothesis the counterexample forces: IF at
least one candidate's bye flag is still false (`byeSelect` finds someone),
then on an odd pool the bye goes to the lowest-ranked such player, who gains
exactly one point, has the flag set (only players with the flag still false
are ever selected, and a set flag never resets, so a player's flag becomes
true at most once), and appears in the returned round only as its single
bye entry, never in a game pairing. -/
theorem bye_assignment_amended (s : State) (pid : Nat)
    (hnd : (s.map (fun p => p.id)).Nodup)
    (hodd : (rankedIds s).length % 2 = 1)
    (hsel : byeSelect s (rankedIds s) = some pid) :
    getBye s pid = false ∧
    (∃ l1 l2, rankedIds s = l1 ++ pid :: l2 ∧ ∀ q ∈ l2, getBye s q = true) ∧
    (swiss_pair s).1 = giveBye s pid ∧
    getBye (swiss_pair s).1 pid = true ∧
    getScore (swiss_pair s).1 pid = getScore s pid + 2 ∧
    (∀ q, getBye s q = true → getBye (swiss_pair s).1 q = true) ∧
    (∀ r, (swiss_pair s).2 = .ok r →
      byeCountRound r = 1 ∧ r.head? = some (pid, none) ∧
      ∀ e ∈ r, (e.1 = pid ∨ e.2 = some pid) → e = (pid, none)) := by
  obtain ⟨hpred, as, bs, hsplit, hfront⟩ :=
    List.find?_eq_some.mp hsel
  have hbyef : getBye s pid = false := by simpa using hpred
  have hranked : rankedIds s = bs.reverse ++ pid :: as.reverse := by
    have := congrArg List.reverse hsplit
    simpa [List.reverse_append] using this
  have hpmem : pid ∈ rankedIds s := by
    rw [hranked]; exact List.mem_append.mpr (Or.inr (List.mem_cons_self _ _))
  have hpmem' : pid ∈ s.map (fun p => p.id) := (rankedIds_perm s).mem_iff.mp hpmem
  have hbs : byeStep s = (giveBye s pid, (rankedIds s).erase pid, [(pid, none)]) := by
    unfold byeStep
    rw [if_pos hodd, hsel]
  have hstate : (swiss_pair s).1 = giveBye s pid := by
    show (byeStep s).1 = _
    rw [hbs]
  have hndrk : (rankedIds s).Nodup := (rankedIds_perm s).symm.nodup hnd
  refine ⟨hbyef, ⟨bs.reverse, as.reverse, hranked, ?_⟩, hstate, ?_, ?_, ?_, ?_⟩
  · intro q hq
    have := hfront q (List.mem_reverse.mp hq)
    simpa using this
  · rw [hstate]; exact (giveBye_self s pid hpmem').1
  · rw [hstate]; exact (giveBye_self s pid hpmem').2
  · intro q hq
    rw [hstate]; exact getBye_giveBye_mono s pid q hq
  · intro r hok
    revert hok
    unfold swiss_pair
    rw [hbs]
    cases hp : pairLoop (giveBye s pid) ((rankedIds s).erase pid) with
    | error e => intro hok; exact Except.noConfusion hok
    | ok ps =>
      intro hok
      simp only [Except.ok.injEq] at hok
      subst hok
      refine ⟨?_, ?_, ?_⟩
      · simp only [List.singleton_append, byeCountRound_cons_none, byeCountRound_map_pairs]
      · simp only [List.singleton_append, List.head?_cons]
      · intro e he hpe
        rcases List.mem_append.mp he with hbye | hgame
        · simpa using List.mem_singleton.mp hbye
        · exfalso
          obtain ⟨wb, hwb, rfl⟩ := List.mem_map.mp hgame
          have hin := pairLoopAux_mem (giveBye s pid) _ _ ps hp wb hwb
          have hnotin : pid ∉ (rankedIds s).erase pid := hndrk.not_mem_erase
          rcases hpe with h1 | h2
          · exact hnotin (h1 ▸ hin.1)
          · have : wb.2 = pid := by simpa using h2
            exact hnotin (this ▸ hin.2)

/-- Claim C8, counterexample: on `sAllByes3` the pool is odd but every bye
flag is already true — the returned round contains NO bye entry at all,
refuting "exactly one bye entry" as universally stated. -/
theorem odd_pool_no_bye_cex :
    sAllByes3.length % 2 = 1 ∧
    (swiss_pair sAllByes3).2 = .ok [(1, some 2)] ∧
    byeCountRound [((1 : Nat), some (2 : Nat))] = 0 :=
  ⟨rfl, rfl, rfl⟩

/-- Witness for the amended C8 statement: on `sRepeat3` (odd pool, Cal
still eligible) the bye goes to Cal, lowest ranked, with flag and score
committed. -/
theorem bye_assignment_amended_witness :
    getBye sRepeat3 3 = false ∧
    (swiss_pair sRepeat3).1 = giveBye sRepeat3 3 ∧
    getScore (swiss_pair sRepeat3).1 3 = getScore sRepeat3 3 + 2 :=
  ⟨(bye_assignment_amended sRepeat3 3 (by decide) (by decide) (by decide)).1,
   (bye_assignment_amended sRepeat3 3 (by decide) (by decide) (by decide)).2.2.1,
   (bye_assignment_amended sRepeat3 3 (by decide) (by decide) (by decide)).2.2.2.2.1⟩

/-! Claim C7: the no-repeat invariant on reachable states.  The key
structural fact is that every operation keeps opponent histories
symmetric. -/

/-- An update that touches neither ids nor opponent lists leaves every
opponent lookup unchanged. -/
theorem getOpponents_updPlayer_pres (s : State) (pid : Nat) (f : Player → Player)
    (hfid : ∀ p, (f p).id = p.id) (hfop : ∀ p, (f p).opponents = p.opponents)
    (q : Nat) : getOpponents (updPlayer s pid f) q = getOpponents s q := by
  unfold getOpponents
  rw [findPlayer_updPlayer s pid q f hfid]
  cases hf : findPlayer s q with
  | none => rfl
  | some p => by_cases hid : p.id = pid <;> simp [hid, hfop]

/-- `putResult` does not touch opponent histories. -/
theorem getOpponents_putResult (t : State) (pid o : Nat) (v : Int) (q : Nat) :
    getOpponents (putResult t pid o v) q = getOpponents t q :=
  getOpponents_updPlayer_pres t pid
    (fun p => { p with results := setAssoc p.results o v }) (fun _ => rfl) (fun _ => rfl) q

/-- `addScore` does not touch opponent histories. -/
theorem getOpponents_addScore (t : State) (pid : Nat) (d : Int) (q : Nat) :
    getOpponents (addScore t pid d) q = getOpponents t q :=
  getOpponents_updPlayer_pres t pid
    (fun p => { p with score := p.score + d }) (fun _ => rfl) (fun _ => rfl) q

/-- The bye mutation does not touch opponent histories. -/
theorem getOpponents_giveBye (s : State) (pid q : Nat) :
    getOpponents (giveBye s pid) q = getOpponents s q :=
  getOpponents_updPlayer_pres s pid
    (fun p => { p with bye := true, score := p.score + 2 }) (fun _ => rfl) (fun _ => rfl) q

/-- The colors/opponents append of `apply_results`, seen through every
lookup: the updated key gains one opponent, every other key is
untouched. -/
theorem getOpponents_updAppend (s : State) (pid x q : Nat) (c : String) :
    getOpponents (updPlayer s pid (fun p =>
      { p with colors := p.colors ++ [c], opponents := p.opponents ++ [x] })) q =
    if q = pid then ((findPlayer s q).map (fun p => p.opponents ++ [x])).getD []
    else getOpponents s q := by
  unfold getOpponents
  rw [findPlayer_updPlayer s pid q
    (fun p => { p with colors := p.colors ++ [c], opponents := p.opponents ++ [x] })
    (fun _ => rfl)]
  cases hf : findPlayer s q with
  | none => by_cases hq : q = pid <;> simp [hq]
  | some p =>
    have hid : p.id = q := by simpa using List.find?_some hf
    by_cases hq : q = pid
    · subst hq
      simp [hid]
    · rw [if_neg hq]
      simp [hid, hq]

/-- Registration never touches existing opponent histories, and the new
player has none. -/
theorem getOpponents_add_player (s : State) (n : String) (rt : Int) (g : String)
    (a : Nat) (q : Nat) :
    getOpponents (add_player s n rt g a) q = getOpponents s q := by
  unfold getOpponents add_player findPlayer
  rw [List.find?_append]
  cases hf : List.find? (fun p => p.id == q) s with
  | some p => simp [hf]
  | none =>
    simp only [hf, Option.none_or]
    by_cases hq : (s.length + 1 = q)
    · simp [List.find?, hq, hf]
    · have hbeq : (s.length + 1 == q) = false := by simpa using hq
      simp [List.find?, hbeq, hf]

/-- One applied entry keeps opponent histories symmetric: it appends the
two players to each other's lists and touches nobody else. -/
theorem Sym_applyEntry (s : State) (w b : Nat) (r : String)
    (hw : (findPlayer s w).isSome = true) (hb : (findPlayer s b).isSome = true)
    (hS : Sym s) : Sym (applyEntry s w b r) := by
  have hkey : ∀ q, getOpponents (applyEntry s w b r) q =
      getOpponents (updPlayer (updPlayer s w (fun p =>
        { p with colors := p.colors ++ ["W"], opponents := p.opponents ++ [b] })) b
        (fun p =>
          { p with colors := p.colors ++ ["B"], opponents := p.opponents ++ [w] })) q := by
    intro q
    unfold applyEntry
    split_ifs <;> simp only [getOpponents_putResult, getOpponents_addScore]
  have hops1 : ∀ q, getOpponents (updPlayer s w (fun p =>
      { p with colors := p.colors ++ ["W"], opponents := p.opponents ++ [b] })) q =
      if q = w then getOpponents s q ++ [b] else getOpponents s q := by
    intro q
    rw [getOpponents_updAppend s w b q ("W")]
    by_cases hq : q = w
    · subst hq
      obtain ⟨p, hp⟩ := Option.isSome_iff_exists.mp hw
      simp [hp, getOpponents]
    · simp [hq]
  have hb1 : (findPlayer (updPlayer s w (fun p =>
      { p with colors := p.colors ++ ["W"], opponents := p.opponents ++ [b] })) b).isSome
        = true := by
    rw [findPlayer_isSome_iff, map_id_updW]
    exact (findPlayer_isSome_iff s b).mp hb
  have hops2 : ∀ q, getOpponents (updPlayer (updPlayer s w (fun p =>
      { p with colors := p.colors ++ ["W"], opponents := p.opponents ++ [b] })) b
        (fun p =>
          { p with colors := p.colors ++ ["B"], opponents := p.opponents ++ [w] })) q =
      if q = b then (if q = w then getOpponents s q ++ [b] else getOpponents s q) ++ [w]
      else (if q = w then getOpponents s q ++ [b] else getOpponents s q) := by
    intro q
    rw [getOpponents_updAppend _ b w q ("B")]
    by_cases hq : q = b
    · rw [if_pos hq, if_pos hq, ← hops1 q]
      have hq1 : (findPlayer (updPlayer s w (fun p =>
          { p with colors := p.colors ++ ["W"], opponents := p.opponents ++ [b] }))
            q).isSome = true := by
        rw [hq]; exact hb1
      obtain ⟨p, hp⟩ := Option.isSome_iff_exists.mp hq1
      simp [getOpponents, hp]
    · rw [if_neg hq, if_neg hq, hops1]
  have hmem : ∀ q z, z ∈ getOpponents (applyEntry s w b r) q ↔
      (z ∈ getOpponents s q ∨ (q = w ∧ z = b) ∨ (q = b ∧ z = w)) := by
    intro q z
    rw [hkey q, hops2 q]
    by_cases hqb : q = b
    · by_cases hqw : q = w
      · subst hqw
        subst hqb
        rw [if_pos rfl, if_pos rfl]
        simp only [List.mem_append, List.mem_singleton]
        tauto
      · subst hqb
        rw [if_pos rfl, if_neg hqw]
        simp only [List.mem_append, List.mem_singleton]
        tauto
    · by_cases hqw : q = w
      · subst hqw
        rw [if_neg hqb, if_pos rfl]
        simp only [List.mem_append, List.mem_singleton]
        tauto
      · rw [if_neg hqb, if_neg hqw]
        simp [hqb, hqw]
  intro i j hj
  rcases (hmem i j).mp hj with h | ⟨hiw, hjb⟩ | ⟨hib, hjw⟩
  · exact (hmem j i).mpr (Or.inl (hS i j h))
  · exact (hmem j i).mpr (Or.inr (Or.inr ⟨hjb, hiw⟩))
  · exact (hmem j i).mpr (Or.inr (Or.inl ⟨hjw, hib⟩))

/-- A successful batch keeps opponent histories symmetric. -/
theorem Sym_apply_results :
    ∀ (rs : List (Nat × Option Nat × String)) (s s' : State),
      Sym s → apply_results s rs = .ok s' → Sym s'
  | [], s, s', hS, h => by
    simp only [apply_results] at h
    cases h
    exact hS
  | (w, none, r) :: rest, s, s', hS, h => by
    simp only [apply_results] at h
    exact Sym_apply_results rest s s' hS h
  | (w, some b, r) :: rest, s, s', hS, h => by
    simp only [apply_results] at h
    by_cases hwb : ((findPlayer s w).isSome && (findPlayer s b).isSome) = true
    · rw [if_pos hwb] at h
      obtain ⟨hw, hb⟩ := Bool.and_eq_true_iff.mp hwb
      exact Sym_apply_results rest (applyEntry s w b r) s'
        (Sym_applyEntry s w b r hw hb hS) h
    · rw [if_neg hwb] at h
      exact Except.noConfusion h

/-- Round generation (which only ever commits a bye mutation) keeps
opponent histories symmetric. -/
theorem Sym_swiss_pair_state (s : State) (hS : Sym s) : Sym (swiss_pair s).1 := by
  show Sym (byeStep s).1
  unfold byeStep
  split
  · cases hsel : byeSelect s (rankedIds s) with
    | some pid =>
      simp only [hsel]
      intro i j hj
      rw [getOpponents_giveBye] at hj ⊢
      exact hS i j hj
    | none => simp only [hsel]; exact hS
  · exact hS

/-- Every state the app can reach has symmetric opponent histories. -/
theorem Reachable_Sym (s : State) (h : Reachable s) : Sym s := by
  induction h with
  | init =>
    intro i j hj
    simp [getOpponents, findPlayer] at hj
  | register s n rt g a hR ih =>
    intro i j hj
    rw [getOpponents_add_player] at hj ⊢
    exact ih i j hj
  | generate s hR ih => exact Sym_swiss_pair_state s ih
  | submit s rs s' hR happ ih => exact Sym_apply_results rs s s' ih happ

/-- Every pair the loop emits joins two players who are not in each other's
opponent history (given symmetric histories). -/
theorem pairLoopAux_no_repeat (s : State) (hS : Sym s) :
    ∀ (fuel : Nat) (u : List Nat) (ps : List (Nat × Nat)),
      pairLoopAux s fuel u = .ok ps →
      ∀ wb ∈ ps, wb.2 ∉ getOpponents s wb.1 ∧ wb.1 ∉ getOpponents s wb.2 := by
  intro fuel
  induction fuel with
  | zero =>
    intro u ps h wb hwb
    match u, h with
    | [], h => cases h; exact absurd hwb (List.not_mem_nil wb)
    | [x], h => cases h; exact absurd hwb (List.not_mem_nil wb)
    | p1 :: q :: rest, h => cases h; exact absurd hwb (List.not_mem_nil wb)
  | succ fuel ih =>
    intro u ps h wb hwb
    match u with
    | [] => cases h; exact absurd hwb (List.not_mem_nil wb)
    | [x] => cases h; exact absurd hwb (List.not_mem_nil wb)
    | p1 :: q :: rest =>
      simp only [pairLoopAux] at h
      cases hfo : findOpp s p1 (q :: rest) with
      | none => simp only [hfo] at h; exact Except.noConfusion h
      | some p2 =>
        simp only [hfo] at h
        cases hcc : choose_colors s p1 p2 with
        | error e => simp only [hcc] at h; exact Except.noConfusion h
        | ok wb0 =>
          simp only [hcc] at h
          cases hrec : pairLoopAux s fuel ((q :: rest).erase p2) with
          | error e => simp only [hrec] at h; exact Except.noConfusion h
          | ok tl =>
            simp only [hrec] at h
            injection h with h
            subst h
            rcases List.mem_cons.mp hwb with rfl | htl
            · have hnp : p2 ∉ getOpponents s p1 :=
                choose_colors_ok_not_played s p1 p2 wb hcc
              have hnp' : p1 ∉ getOpponents s p2 := fun hmem => hnp (hS p2 p1 hmem)
              rcases choose_colors_shape s p1 p2 wb hcc with rfl | rfl
              · exact ⟨hnp, hnp'⟩
              · exact ⟨hnp', hnp⟩
            · exact ih ((q :: rest).erase p2) tl hrec wb htl

/-- Claim C7: on any reachable state, no board of a generated round pairs
two players who already appear in each other's opponent history. -/
theorem generated_round_no_repeat (s : State) (r : List (Nat × Option Nat))
    (hR : Reachable s) (hok : (swiss_pair s).2 = .ok r) :
    ∀ e ∈ r, ∀ bb : Nat, e.2 = some bb →
      bb ∉ getOpponents s e.1 ∧ e.1 ∉ getOpponents s bb := by
  have hS : Sym s := Reachable_Sym s hR
  have hS1 : Sym (byeStep s).1 := Sym_swiss_pair_state s hS
  have hOppEq : ∀ q, getOpponents (byeStep s).1 q = getOpponents s q := by
    intro q
    unfold byeStep
    split
    · cases hsel : byeSelect s (rankedIds s) with
      | some pid => simp only [hsel]; exact getOpponents_giveBye s pid q
      | none => simp only [hsel]
    · rfl
  have hbyes : ∀ e ∈ (byeStep s).2.2, (e : Nat × Option Nat).2 = none := by
    unfold byeStep
    split
    · cases hsel : byeSelect s (rankedIds s) with
      | some pid =>
        simp only [hsel]
        intro e he
        have := List.mem_singleton.mp he
        rw [this]
      | none => simp only [hsel]; intro e he; exact absurd he (List.not_mem_nil e)
    · intro e he; exact absurd he (List.not_mem_nil e)
  revert hok
  show (match pairLoop (byeStep s).1 (byeStep s).2.1 with
    | .error e => Except.error e
    | .ok ps => .ok ((byeStep s).2.2 ++ ps.map (fun wb : Nat × Nat => (wb.1, some wb.2)))) = .ok r → _
  cases hp : pairLoop (byeStep s).1 (byeStep s).2.1 with
  | error e => intro hok; exact Except.noConfusion hok
  | ok ps =>
    intro hok
    simp only [Except.ok.injEq] at hok
    subst hok
    intro e he bb hbb
    rcases List.mem_append.mp he with hbye | hgame
    · rw [hbyes e hbye] at hbb
      exact Option.noConfusion hbb
    · obtain ⟨wb, hwb, rfl⟩ := List.mem_map.mp hgame
      have hbb' : bb = wb.2 := by simpa using hbb.symm
      subst hbb'
      have := pairLoopAux_no_repeat (byeStep s).1 hS1 _ _ ps hp wb hwb
      rw [hOppEq, hOppEq] at this
      exact this

/-- Names used to build a reachable two-player registry. -/
def nm1 : String := "Gil"

def nm2 : String := "Hal"

def gEmpty : String := ""

/-- Two players registered through `add_player` (a reachable state). -/
def sReg2 : State :=
  add_player (add_player [] nm1 1500 gEmpty 20) nm2 1400 gEmpty 21

/-- Witness for C7: on the reachable fresh two-player registry the
generated round pairs 1 and 2, who are indeed not in each other's
histories. -/
theorem generated_round_no_repeat_witness :
    2 ∉ getOpponents sReg2 1 ∧ 1 ∉ getOpponents sReg2 2 :=
  generated_round_no_repeat sReg2 [(1, some 2)]
    (Reachable.register _ nm2 1400 gEmpty 21
      (Reachable.register _ nm1 1500 gEmpty 20 Reachable.init))
    rfl (1, some 2) (by decide) 2 rfl

/-! Claim C10. -/

/-- Claim C10: with three players who have all had their bye already,
`swiss_pair` raises nothing — the bye scan finds nobody, two players are
paired, and the third is silently left out of the round entirely. -/
theorem all_byes_used_silent_drop :
    swiss_pair sAllByes3 = (sAllByes3, .ok [(1, some 2)]) ∧
    sAllByes3.length % 2 = 1 ∧
    sAllByes3.all (fun p => p.bye) = true ∧
    3 ∈ sAllByes3.map (fun p => p.id) ∧
    [((1 : Nat), some (2 : Nat))].all (fun e => e.1 != 3 && e.2 != some 3) = true :=
  ⟨rfl, rfl, by decide, by decide, by decide⟩

end Swiss
